import Mathlib

/-!
Shallow embedding of `src/quest_solution.py`, a remote-to-S3 reconciliation
script.  Network and filesystem effects are modelled by explicit oracles
(`fetchOk`, `localExists`, `delOk`) and by explicit page lists standing for
the store's paginated listings.  Names and keys are Lean `String`s; the
character-level string operations the script uses (`str.split`,
`startswith`, `endswith`) are modelled over `List Char` (`String.data`).
-/

namespace Quest

abbrev Name := String

/-! ### Python `str.split(sep)` for a nonempty separator

`splitFirst sep s` finds the leftmost occurrence of `sep` in `s` and returns
the part before it and the part after it; `pySplit sep s` iterates this,
matching Python's left-to-right non-overlapping scan.  (Python raises
`ValueError` on an empty separator; all in-repo uses pass a nonempty one.) -/

def splitFirst (sep : List Char) : List Char → Option (List Char × List Char)
  | [] => none
  | c :: cs =>
    if sep.isPrefixOf (c :: cs) then some ([], (c :: cs).drop sep.length)
    else (splitFirst sep cs).map (fun p => (c :: p.1, p.2))

def pySplitFuel : Nat → List Char → List Char → List (List Char)
  | 0, _, s => [s]
  | fuel + 1, sep, s =>
    match splitFirst sep s with
    | none => [s]
    | some (pre, post) => pre :: pySplitFuel fuel sep post

def pySplit (sep s : List Char) : List (List Char) :=
  pySplitFuel (s.length + 1) sep s

/-- Line 79 of the source: `key.split(s3_prefix)[1]`. -/
def splitIndex1 (sep s : List Char) : List Char :=
  (pySplit sep s).getD 1 []

/-- Lines 78–79 of `get_s3_objects`: if the key starts with the prefix,
replace it by element 1 of its Python split on the prefix. -/
def stripKey (sp key : String) : String :=
  if sp.data.isPrefixOf key.data then ⟨splitIndex1 sp.data key.data⟩ else key

/-- Line 77: folder-marker test `key.endswith('/')`: the last character of
the key is a slash. -/
def isMarker (key : String) : Bool :=
  key.data.getLast? == some '/'

/-- Inner loop of `get_s3_objects` (lines 74–80) over one paginator page;
a page whose dict has no `Contents` entry is `none`. -/
def processPage (sp : String) (objects : List String) :
    Option (List String) → List String
  | none => objects
  | some items =>
    items.foldl
      (fun objs key => if isMarker key then objs else objs ++ [stripKey sp key])
      objects

/-- Model of `get_s3_objects` (lines 65–82): fold over every page of the
paginated listing, accumulating the processed keys. -/
def get_s3_objects (sp : String) (pages : List (Option (List String))) :
    List String :=
  pages.foldl (processPage sp) []

/-! ### Remote catalog (Python dict `name → url-or-None`) -/

/-- A remote catalog: the ordered items of the Python dict
`name → locator`, a locator being an URL string or `None`. -/
abbrev RemoteCatalog := List (Name × Option String)

def keys (R : RemoteCatalog) : List Name := R.map Prod.fst

/-- Python dict assignment `d[n] = u`: overwrite in place if the key exists,
else append at the end. -/
def dictInsert (R : RemoteCatalog) (n : Name) (u : Option String) :
    RemoteCatalog :=
  if n ∈ keys R then R.map (fun p => if p.1 = n then (n, u) else p)
  else R ++ [(n, u)]

/-! ### `upload_files_to_s3` (lines 84–114)

The loop body fetches and uploads each remote item that is not yet in the
store, and additionally saves a fixed allow-list of names to a local
directory, reusing the upload's response when one was made.  `requests.get`
outcomes are an oracle `fetchOk` on item names; a failing
`raise_for_status` raises, which in the source aborts the whole loop (there
is no try/except).  The run therefore returns the state reached so far plus
`some name` of the item whose fetch raised, or `none` when the loop
finished. -/

/-- Line 89: `files_to_download = ["pr.data.0.Current"]`. -/
def files_to_download : List Name := ["pr.data.0.Current"]

structure UploadState where
  /-- names the loop has uploaded to the bucket (line 102) -/
  uploaded : List Name
  /-- names the loop has written to the local data directory (lines 112–114) -/
  localSaved : List Name
  /-- one entry per `requests.get` call, recording the item's name
  (lines 99 and 110) -/
  fetches : List Name
deriving Repr, DecidableEq

/-- Lines 106–114: the optional local save of an allow-listed item.
`respAvail` says whether `file_resp` is non-`None` (an upload fetch already
happened for this item); otherwise a dedicated fetch is made, whose failure
raises. -/
def uploadLocalPart (localExists : Name → Bool) (fetchOk : Name → Bool)
    (st : UploadState) (filename : Name) (respAvail : Bool) :
    UploadState × Option Name :=
  if filename ∈ files_to_download ∧ localExists filename = false ∧
      filename ∉ st.localSaved then
    if respAvail then
      ({ st with localSaved := st.localSaved ++ [filename] }, none)
    else
      let st1 := { st with fetches := st.fetches ++ [filename] }
      if fetchOk filename then
        ({ st1 with localSaved := st1.localSaved ++ [filename] }, none)
      else (st1, some filename)
  else (st, none)

/-- One iteration of the loop at line 94 over `files_info.items()`. -/
def uploadStep (existing : List Name) (localExists : Name → Bool)
    (fetchOk : Name → Bool) (st : UploadState) :
    Name × Option String → UploadState × Option Name
  | (_, none) => (st, none)
  | (filename, some _) =>
    if filename ∈ existing then
      uploadLocalPart localExists fetchOk st filename false
    else
      let st1 := { st with fetches := st.fetches ++ [filename] }
      if fetchOk filename then
        let st2 := { st1 with uploaded := st1.uploaded ++ [filename] }
        uploadLocalPart localExists fetchOk st2 filename true
      else (st1, some filename)

def uploadLoop (existing : List Name) (localExists : Name → Bool)
    (fetchOk : Name → Bool) :
    List (Name × Option String) → UploadState → UploadState × Option Name
  | [], st => (st, none)
  | item :: rest, st =>
    match uploadStep existing localExists fetchOk st item with
    | (st1, some n) => (st1, some n)
    | (st1, none) => uploadLoop existing localExists fetchOk rest st1

/-- Model of `upload_files_to_s3(files_info, existing_s3_files, s3_prefix)`:
run the loop from the empty state.  The store prefix only decorates the
uploaded key and plays no role at the name level. -/
def upload_files_to_s3 (files_info : RemoteCatalog) (existing : List Name)
    (localExists : Name → Bool) (fetchOk : Name → Bool) :
    UploadState × Option Name :=
  uploadLoop existing localExists fetchOk files_info ⟨[], [], []⟩

/-! ### `remove_files_from_s3` (lines 116–128) -/

/-- Line 120: `set(existing_s3_files) - set(files_info.keys())`, as a
deduplicated list. -/
def files_to_delete (files_info : RemoteCatalog) (existing : List Name) :
    List Name :=
  (existing.filter (fun n => decide (n ∉ keys files_info))).dedup

/-- Model of `remove_files_from_s3`: when the difference is nonempty, one
batch delete call is issued for the prefixed keys and the printed report counts
`len(delete_objects)`.  `delOk` is the per-key server outcome of the batch
call; the function returns the names the server actually deleted and the
reported count. -/
def remove_files_from_s3 (files_info : RemoteCatalog) (existing : List Name)
    (sp : String) (delOk : Name → Bool) : List Name × Nat :=
  let ftd := files_to_delete files_info existing
  if ftd = [] then ([], 0)
  else
    let delete_objects := ftd.map (fun f => sp ++ f)
    (ftd.filter delOk, delete_objects.length)

/-! ### `generate_index_html` (lines 130–169)

The source makes a single `list_objects_v2` call (no paginator, unlike
`get_s3_objects`), so it only ever sees the first page of the listing; the
response has no `Contents` entry when the prefix holds no objects.  The
function returns the `put_object` it performs — `(key, body)` — or `none`
when it returned early. -/

def S3_BUCKET_NAME : String := "rearc-quest-data-bhagath"

def AWS_REGION : String := "ap-south-1"

/-- A single `list_objects_v2` call against a store whose full listing
would come back in `pages`: only the first page is returned, and an empty
listing has no `Contents` entry. -/
def list_objects_v2 (pages : List (List String)) : Option (List String) :=
  pages.head?

/-- Line 152: `key.split("/")[-1]`. -/
def basename (key : String) : String :=
  ⟨(pySplit "/".data key.data).getLastD []⟩

/-- Line 153: the deterministic public URL of a key. -/
def fileUrl (key : String) : String :=
  "https://" ++ S3_BUCKET_NAME ++ ".s3." ++ AWS_REGION ++ ".amazonaws.com/"
    ++ key

/-- Line 154: the list entry appended for a non-marker key. -/
def liLine (key : String) : String :=
  "<li><a href=\"" ++ fileUrl key ++ "\">" ++ basename key ++ "</a></li>"

/-- Lines 141–146: the fixed head of `html_lines`. -/
def indexHeader (pfx : String) : List String :=
  ["<!DOCTYPE html>",
   "<html><head><title>Dataset Files</title></head><body>",
   "<h2>Files in " ++ pfx ++ "</h2>",
   "<ul>"]

def generate_index_html (pfx : String) (response : Option (List String)) :
    Option (String × String) :=
  match response with
  | none => none
  | some contents =>
    let html_lines :=
      contents.foldl
        (fun lines key =>
          if isMarker key then lines else lines ++ [liLine key])
        (indexHeader pfx)
    let html_lines := html_lines ++ ["</ul></body></html>"]
    some (pfx ++ "index.html", String.intercalate "\n" html_lines)

/-- The `Contents` list of a paginator page (`[]` when the page has no
`Contents` entry). -/
def pageKeys : Option (List String) → List String
  | none => []
  | some items => items

/-- Follows the claim's words (refinement side): the index document that
lists one entry per non-marker key of `allKeys`, with anchor text the
basename and href the deterministic public URL. -/
def specIndexDocument (pfx : String) (allKeys : List String) : String :=
  String.intercalate "\n"
    (indexHeader pfx ++ (allKeys.filter (fun k => !isMarker k)).map liLine
      ++ ["</ul></body></html>"])

/-! ### `sync_bucket` (lines 171–191), at the level of store-key sets -/

/-- Lines 176–179: the remote catalog `sync_bucket` plans with — the
dataset-1 dict (built with last-wins assignment, line 49) plus the two
injected `None`-locator entries. -/
def sync_remote (d1 : List (Name × String)) : RemoteCatalog :=
  dictInsert
    (dictInsert (d1.foldl (fun R p => dictInsert R p.1 (some p.2)) [])
      "index.html" none)
    "usa_population.json" none

/-- The store's key set (prefix-stripped) after one fully successful run of
`sync_bucket` against initial store set `S`: keys of `S` that survived the
delete step, plus everything the upload loop put, plus the dataset-2 JSON
(line 187) and the index document (line 161), both written unconditionally. -/
def storeAfterRun (d1 : List (Name × String)) (S : List Name) : List Name :=
  let R := sync_remote d1
  let up :=
    (upload_files_to_s3 R S (fun _ => true) (fun _ => true)).1.uploaded
  S.filter (fun n => decide (n ∈ keys R)) ++ up
    ++ ["usa_population.json", "index.html"]

end Quest

namespace Quest

/- sanity examples while developing -/
example : pySplit "ab".data "abxaby".data = ["".data, "x".data, "y".data] := by decide
example : stripKey "dataset/" "dataset/a.txt" = "a.txt" := by decide
example : stripKey "dataset/" "dataset/dataset/x.txt" = "" := by decide
example : get_s3_objects "d/" [some ["d/a", "d/b/"], none, some ["d/c"]] = ["a", "c"] := by
  decide
example :
    upload_files_to_s3 [("a.txt", some "ua"), ("b.txt", some "ub")] []
      (fun _ => false) (fun n => n == "b.txt")
    = (⟨[], [], ["a.txt"]⟩, some "a.txt") := by decide
example :
    upload_files_to_s3 [("a.txt", some "ua"), ("b.txt", some "ub")] ["a.txt"]
      (fun _ => false) (fun _ => true)
    = (⟨["b.txt"], [], ["b.txt"]⟩, none) := by decide
example :
    upload_files_to_s3 [("pr.data.0.Current", some "u")] ["pr.data.0.Current"]
      (fun _ => false) (fun _ => true)
    = (⟨[], ["pr.data.0.Current"], ["pr.data.0.Current"]⟩, none) := by decide
example :
    remove_files_from_s3 [("a", some "u")] ["a", "c", "d"] "p/" (fun n => n == "c")
    = (["c"], 2) := by decide
set_option maxRecDepth 10000 in
example :
    generate_index_html "d/" (some ["d/a", "d/"])
    = some ("d/index.html",
        "<!DOCTYPE html>\n<html><head><title>Dataset Files</title></head><body>\n"
        ++ "<h2>Files in d/</h2>\n<ul>\n"
        ++ "<li><a href=\"https://rearc-quest-data-bhagath.s3.ap-south-1.amazonaws.com/d/a\">a</a></li>\n"
        ++ "</ul></body></html>") := by decide
example : sync_remote [("a.txt", "ua")] =
    [("a.txt", some "ua"), ("index.html", none), ("usa_population.json", none)] := by
  decide
example : storeAfterRun [("a.txt", "ua")] ["a.txt", "z.txt"]
    = ["a.txt", "usa_population.json", "index.html"] := by decide

/-! ### Helper lemmas about the Python split model -/

lemma splitFirst_length_lt {sep : List Char} (hsep : sep ≠ []) :
    ∀ {s pre post : List Char}, splitFirst sep s = some (pre, post) →
      post.length < s.length := by
  intro s
  induction s with
  | nil => intro pre post h; simp [splitFirst] at h
  | cons c cs ih =>
    intro pre post h
    rw [splitFirst] at h
    split at h
    · simp only [Option.some.injEq, Prod.mk.injEq] at h
      obtain ⟨-, h2⟩ := h
      have hsl : 1 ≤ sep.length := by
        cases sep
        · exact absurd rfl hsep
        · simp
      subst h2
      simp only [List.length_drop, List.length_cons]
      omega
    · cases hsf : splitFirst sep cs with
      | none => rw [hsf] at h; simp at h
      | some p =>
        rw [hsf] at h
        simp only [Option.map_some', Option.some.injEq, Prod.mk.injEq] at h
        obtain ⟨-, h2⟩ := h
        have := ih (show splitFirst sep cs = some (p.1, p.2) by rw [hsf])
        subst h2
        simp only [List.length_cons]
        omega

lemma pySplitFuel_succ_none {fuel : Nat} {sep s : List Char}
    (h : splitFirst sep s = none) : pySplitFuel (fuel + 1) sep s = [s] := by
  simp [pySplitFuel, h]

lemma pySplitFuel_succ_some {fuel : Nat} {sep s pre post : List Char}
    (h : splitFirst sep s = some (pre, post)) :
    pySplitFuel (fuel + 1) sep s = pre :: pySplitFuel fuel sep post := by
  simp [pySplitFuel, h]

lemma pySplitFuel_congr {sep : List Char} (hsep : sep ≠ []) :
    ∀ (f1 f2 : Nat) (s : List Char), s.length < f1 → s.length < f2 →
      pySplitFuel f1 sep s = pySplitFuel f2 sep s := by
  intro f1
  induction f1 with
  | zero => intro f2 s h1 h2; omega
  | succ f ih =>
    intro f2 s h1 h2
    cases f2 with
    | zero => omega
    | succ f2 =>
      cases hsf : splitFirst sep s with
      | none => rw [pySplitFuel_succ_none hsf, pySplitFuel_succ_none hsf]
      | some p =>
        obtain ⟨pre, post⟩ := p
        have hlt := splitFirst_length_lt hsep hsf
        rw [pySplitFuel_succ_some hsf, pySplitFuel_succ_some hsf]
        have := ih f2 post (by omega) (by omega)
        rw [this]

lemma pySplit_of_none {sep s : List Char} (h : splitFirst sep s = none) :
    pySplit sep s = [s] :=
  pySplitFuel_succ_none h

lemma pySplit_of_some {sep s pre post : List Char} (hsep : sep ≠ [])
    (h : splitFirst sep s = some (pre, post)) :
    pySplit sep s = pre :: pySplit sep post := by
  unfold pySplit
  rw [pySplitFuel_succ_some h]
  have hlt := splitFirst_length_lt hsep h
  rw [pySplitFuel_congr hsep s.length (post.length + 1) post (by omega) (by omega)]

lemma splitFirst_append_self {sep : List Char} (hsep : sep ≠ [])
    (rest : List Char) : splitFirst sep (sep ++ rest) = some ([], rest) := by
  cases sep with
  | nil => exact absurd rfl hsep
  | cons c cs =>
    have hpre : (c :: cs).isPrefixOf ((c :: cs) ++ rest) = true := by
      rw [List.isPrefixOf_iff_prefix]
      exact List.prefix_append _ _
    show splitFirst (c :: cs) (c :: (cs ++ rest)) = some ([], rest)
    rw [splitFirst]
    have : (c :: (cs ++ rest)) = (c :: cs) ++ rest := rfl
    rw [this, if_pos hpre, List.drop_left]

/-! ### Helper lemmas about list folds and the listing builder -/

lemma foldl_guard_append {α β : Type} (p : α → Bool) (g : α → β) :
    ∀ (l : List α) (init : List β),
      l.foldl (fun acc x => if p x then acc else acc ++ [g x]) init
        = init ++ (l.filter (fun x => !p x)).map g := by
  intro l
  induction l with
  | nil => intro init; simp
  | cons x xs ih =>
    intro init
    rw [List.foldl_cons, List.filter_cons]
    cases hx : p x with
    | true => simpa [hx] using ih init
    | false => simp [hx, ih (init ++ [g x])]

lemma processPage_eq (sp : String) (objs : List String)
    (pg : Option (List String)) :
    processPage sp objs pg
      = objs ++ ((pageKeys pg).filter (fun k => !isMarker k)).map (stripKey sp) := by
  cases pg with
  | none => simp [processPage, pageKeys]
  | some items =>
    simpa [processPage, pageKeys] using
      foldl_guard_append isMarker (stripKey sp) items objs

lemma get_s3_objects_foldl (sp : String) :
    ∀ (pages : List (Option (List String))) (acc : List String),
      pages.foldl (processPage sp) acc
        = acc ++ ((pages.map pageKeys).flatten.filter
            (fun k => !isMarker k)).map (stripKey sp) := by
  intro pages
  induction pages with
  | nil => intro acc; simp
  | cons pg pgs ih =>
    intro acc
    rw [List.foldl_cons, processPage_eq, ih]
    simp [List.filter_append]

/-! ### Helper lemmas about the upload loop -/

lemma uploadLocalPart_uploaded (le f : Name → Bool) (st : UploadState)
    (n : Name) (r : Bool) :
    (uploadLocalPart le f st n r).1.uploaded = st.uploaded := by
  unfold uploadLocalPart
  split
  · cases r with
    | true => rfl
    | false =>
      cases hf : f n with
      | true => simp [hf]
      | false => simp [hf]
  · rfl

lemma uploadLocalPart_snd_resp (le f : Name → Bool) (st : UploadState)
    (n : Name) : (uploadLocalPart le f st n true).2 = none := by
  unfold uploadLocalPart
  split <;> rfl

lemma uploadLocalPart_snd_ok (le f : Name → Bool) (st : UploadState)
    (n : Name) (r : Bool) (hf : f n = true) :
    (uploadLocalPart le f st n r).2 = none := by
  unfold uploadLocalPart
  split
  · cases r with
    | true => rfl
    | false => simp [hf]
  · rfl

lemma uploadLocalPart_fetches (le f : Name → Bool) (st : UploadState)
    (n : Name) (r : Bool) :
    (uploadLocalPart le f st n r).1.fetches = st.fetches ∨
      (uploadLocalPart le f st n r).1.fetches = st.fetches ++ [n] := by
  unfold uploadLocalPart
  split
  · cases r with
    | true => exact Or.inl rfl
    | false =>
      cases hf : f n with
      | true => simp [hf]
      | false => simp [hf]
  · exact Or.inl rfl

lemma uploadStep_ok (existing : List Name) (le f : Name → Bool)
    (hf : ∀ m, f m = true) (st : UploadState) (n : Name) (u : Option String) :
    (uploadStep existing le f st (n, u)).2 = none ∧
    (uploadStep existing le f st (n, u)).1.uploaded
      = st.uploaded ++ (if u.isSome = true ∧ n ∉ existing then [n] else []) := by
  cases u with
  | none => simp [uploadStep]
  | some url =>
    by_cases hmem : n ∈ existing
    · rw [uploadStep]
      rw [if_pos hmem]
      refine ⟨uploadLocalPart_snd_ok le f st n false (hf n), ?_⟩
      rw [uploadLocalPart_uploaded]
      simp [hmem]
    · rw [uploadStep]
      rw [if_neg hmem, hf n]
      simp only [if_true]
      constructor
      · exact uploadLocalPart_snd_resp le f _ n
      · rw [uploadLocalPart_uploaded]
        simp [hmem]

lemma uploadLoop_ok (existing : List Name) (le f : Name → Bool)
    (hf : ∀ m, f m = true) :
    ∀ (l : RemoteCatalog) (st : UploadState),
      (uploadLoop existing le f l st).2 = none ∧
      ∀ m, m ∈ (uploadLoop existing le f l st).1.uploaded ↔
        (m ∈ st.uploaded ∨ ((∃ url, (m, some url) ∈ l) ∧ m ∉ existing)) := by
  intro l
  induction l with
  | nil => intro st; simp [uploadLoop]
  | cons item rest ih =>
    intro st
    obtain ⟨n, u⟩ := item
    have hstep := uploadStep_ok existing le f hf st n u
    rw [uploadLoop]
    cases hres : uploadStep existing le f st (n, u) with
    | mk st1 abort =>
      rw [hres] at hstep
      cases abort with
      | some e => exact absurd hstep.1 (by simp)
      | none =>
        simp only
        obtain ⟨ihs, ihm⟩ := ih st1
        refine ⟨ihs, fun m => ?_⟩
        rw [ihm m]
        have hup : st1.uploaded
            = st.uploaded ++ (if u.isSome = true ∧ n ∉ existing then [n] else []) :=
          hstep.2
        rw [hup]
        simp only [List.mem_append, List.mem_cons]
        constructor
        · rintro ((h | h) | h)
          · exact Or.inl h
          · by_cases hcond : u.isSome = true ∧ n ∉ existing
            · rw [if_pos hcond] at h
              simp only [List.mem_singleton] at h
              subst h
              obtain ⟨hs, hni⟩ := hcond
              obtain ⟨url, hurl⟩ := Option.isSome_iff_exists.mp hs
              exact Or.inr ⟨⟨url, Or.inl (by rw [hurl])⟩, hni⟩
            · rw [if_neg hcond] at h
              simp at h
          · obtain ⟨⟨url, hurl⟩, hni⟩ := h
            exact Or.inr ⟨⟨url, Or.inr hurl⟩, hni⟩
        · rintro (h | ⟨⟨url, (hurl | hurl)⟩, hni⟩)
          · exact Or.inl (Or.inl h)
          · obtain ⟨hm, hu⟩ := Prod.mk.injEq .. ▸ hurl
            have hm' : m = n := by injection hurl with h1 h2
            have hu' : u = some url := by injection hurl with h1 h2; exact h2.symm
            subst hm'
            left; right
            rw [if_pos ⟨by simp [hu'], hni⟩]
            simp
          · exact Or.inr ⟨⟨url, hurl⟩, hni⟩

lemma uploadLoop_append (existing : List Name) (le f : Name → Bool) :
    ∀ (xs ys : RemoteCatalog) (st : UploadState),
      uploadLoop existing le f (xs ++ ys) st =
        match uploadLoop existing le f xs st with
        | (st1, none) => uploadLoop existing le f ys st1
        | (st1, some n) => (st1, some n) := by
  intro xs
  induction xs with
  | nil => intro ys st; rfl
  | cons item rest ih =>
    intro ys st
    rw [List.cons_append, uploadLoop, uploadLoop]
    cases uploadStep existing le f st item with
    | mk st1 abort =>
      cases abort with
      | none => exact ih ys st1
      | some n => rfl

lemma uploadLocalPart_fetches_resp (le f : Name → Bool) (st : UploadState)
    (n : Name) : (uploadLocalPart le f st n true).1.fetches = st.fetches := by
  unfold uploadLocalPart
  split <;> rfl

lemma uploadStep_fetches (existing : List Name) (le f : Name → Bool)
    (st : UploadState) (n : Name) (u : Option String) :
    (uploadStep existing le f st (n, u)).1.fetches = st.fetches ∨
      (uploadStep existing le f st (n, u)).1.fetches = st.fetches ++ [n] := by
  cases u with
  | none => exact Or.inl rfl
  | some url =>
    rw [uploadStep]
    by_cases hmem : n ∈ existing
    · rw [if_pos hmem]
      exact uploadLocalPart_fetches le f st n false
    · rw [if_neg hmem]
      cases hf : f n with
      | false => simp
      | true =>
        simp only [if_true]
        right
        rw [uploadLocalPart_fetches_resp]

lemma uploadLoop_count (existing : List Name) (le f : Name → Bool) :
    ∀ (l : RemoteCatalog) (st : UploadState) (m : Name),
      ((uploadLoop existing le f l st).1.fetches).count m
        ≤ st.fetches.count m + (keys l).count m := by
  intro l
  induction l with
  | nil => intro st m; simp [uploadLoop, keys]
  | cons item rest ih =>
    intro st m
    obtain ⟨n, u⟩ := item
    have hkeys : keys ((n, u) :: rest) = n :: keys rest := rfl
    have hstep : ((uploadStep existing le f st (n, u)).1.fetches).count m
        ≤ st.fetches.count m + ([n].count m) := by
      rcases uploadStep_fetches existing le f st n u with h | h
      · rw [h]; omega
      · rw [h, List.count_append]
    rw [uploadLoop]
    cases hres : uploadStep existing le f st (n, u) with
    | mk st1 abort =>
      rw [hres] at hstep
      have hstep' : st1.fetches.count m
          ≤ st.fetches.count m + ([n].count m) := hstep
      have hcons : (keys ((n, u) :: rest)).count m
          = [n].count m + (keys rest).count m := by
        rw [hkeys]
        have : (n :: keys rest) = [n] ++ keys rest := rfl
        rw [this, List.count_append]
      cases abort with
      | some e =>
        simp only
        rw [hcons]
        omega
      | none =>
        simp only
        have := ih st1 m
        rw [hcons]
        omega

/-! ### Helper lemmas about the catalog dictionary -/

lemma keys_dictInsert (R : RemoteCatalog) (n : Name) (u : Option String) :
    keys (dictInsert R n u)
      = if n ∈ keys R then keys R else keys R ++ [n] := by
  unfold dictInsert
  split
  · unfold keys
    rw [List.map_map]
    refine List.map_congr_left fun p _ => ?_
    by_cases hp : p.1 = n
    · simp [hp]
    · simp [hp]
  · unfold keys
    simp

lemma mem_keys_dictInsert {R : RemoteCatalog} {n m : Name} {u : Option String} :
    m ∈ keys (dictInsert R n u) ↔ m = n ∨ m ∈ keys R := by
  rw [keys_dictInsert]
  split
  · rename_i hmem
    constructor
    · exact Or.inr
    · rintro (rfl | h)
      · exact hmem
      · exact h
  · simp [or_comm]

lemma mem_keys_of_some {R : RemoteCatalog} {m : Name} {url : String}
    (h : (m, some url) ∈ R) : m ∈ keys R :=
  List.mem_map.mpr ⟨(m, some url), h, rfl⟩

lemma mem_files_to_delete {files_info : RemoteCatalog} {existing : List Name}
    {n : Name} :
    n ∈ files_to_delete files_info existing
      ↔ n ∈ existing ∧ n ∉ keys files_info := by
  unfold files_to_delete
  rw [List.mem_dedup, List.mem_filter]
  simp

/-! ### Claim C1 -/

/-- C1, counterexample: for the remote mapping `R` sending `index.html`
to `None` and an empty store set, the upload path transfers nothing, yet
`keys(R) − S` is the singleton `index.html`, so `to_upload ≠ keys(R) − S`:
entries whose locator is `None` are skipped by the `continue` at line 96. -/
theorem c1_plan_counterexample :
    "index.html" ∈ keys [("index.html", (none : Option String))] ∧
    "index.html" ∉ ([] : List Name) ∧
    (upload_files_to_s3 [("index.html", none)] [] (fun _ => true)
        (fun _ => true)).2 = none ∧
    (upload_files_to_s3 [("index.html", none)] [] (fun _ => true)
        (fun _ => true)).1.uploaded = [] := by
  decide

/-- C1, amended: with every fetch succeeding, the set of names the upload
path transfers to the store is the set of keys of `R` with a non-`None`
locator minus `S` (not `keys(R) − S`), the delete path removes exactly
`S − keys(R)`, and the two sets are disjoint. -/
theorem c1_plan_characterization (files_info : RemoteCatalog)
    (existing : List Name) (le : Name → Bool) :
    (upload_files_to_s3 files_info existing le (fun _ => true)).2 = none ∧
    (∀ n, n ∈ (upload_files_to_s3 files_info existing le
          (fun _ => true)).1.uploaded
        ↔ ((∃ url, (n, some url) ∈ files_info) ∧ n ∉ existing)) ∧
    (∀ n, n ∈ files_to_delete files_info existing
        ↔ (n ∈ existing ∧ n ∉ keys files_info)) ∧
    (∀ n, n ∈ (upload_files_to_s3 files_info existing le
          (fun _ => true)).1.uploaded
        → n ∉ files_to_delete files_info existing) := by
  have h := uploadLoop_ok existing le (fun _ => true) (fun _ => rfl)
    files_info ⟨[], [], []⟩
  have hup : ∀ n, n ∈ (upload_files_to_s3 files_info existing le
      (fun _ => true)).1.uploaded
      ↔ ((∃ url, (n, some url) ∈ files_info) ∧ n ∉ existing) := by
    intro n
    have := h.2 n
    simpa [upload_files_to_s3] using this
  refine ⟨h.1, hup, fun n => mem_files_to_delete, fun n hn hdel => ?_⟩
  obtain ⟨⟨url, hurl⟩, -⟩ := (hup n).mp hn
  exact (mem_files_to_delete.mp hdel).2 (mem_keys_of_some hurl)

/-! ### Claim C2 -/

/-- C2, counterexample: in a two-item plan where the first item's fetch
fails, the second item is never attempted — the uncaught
`raise_for_status` at line 100 aborts the whole loop, so the remaining
`N − 1` items do not complete. -/
theorem c2_isolation_counterexample :
    upload_files_to_s3 [("a.txt", some "ua"), ("b.txt", some "ub")] []
        (fun _ => false) (fun n => n == "b.txt")
      = (⟨[], [], ["a.txt"]⟩, some "a.txt") ∧
    "b.txt" ∉ (upload_files_to_s3 [("a.txt", some "ua"), ("b.txt", some "ub")]
        [] (fun _ => false) (fun n => n == "b.txt")).1.uploaded := by
  decide

/-- C2, amended: when the fetch of item `k` fails, the items before `k`
in the plan complete exactly as they would alone, item `k`'s fetch is
attempted, and the run aborts there — no later item is attempted. -/
theorem c2_failure_aborts_rest (existing : List Name) (le f : Name → Bool)
    (xs ys : RemoteCatalog) (n : Name) (url : String)
    (hn : n ∉ existing) (hf : f n = false)
    (hxs : (uploadLoop existing le f xs ⟨[], [], []⟩).2 = none) :
    upload_files_to_s3 (xs ++ (n, some url) :: ys) existing le f
      = ({ (uploadLoop existing le f xs ⟨[], [], []⟩).1 with
            fetches :=
              (uploadLoop existing le f xs ⟨[], [], []⟩).1.fetches ++ [n] },
          some n) := by
  unfold upload_files_to_s3
  rw [uploadLoop_append]
  cases hres : uploadLoop existing le f xs ⟨[], [], []⟩ with
  | mk st1 ab =>
    rw [hres] at hxs
    cases ab with
    | some e => simp at hxs
    | none =>
      have hstep : uploadStep existing le f st1 (n, some url)
          = ({ st1 with fetches := st1.fetches ++ [n] }, some n) := by
        rw [uploadStep, if_neg hn, hf]
        simp
      simp only
      rw [uploadLoop, hstep]

/-- C2 witness for the amended theorem, at a concrete two-item plan whose
first item fails. -/
theorem c2_failure_aborts_rest_witness :
    ("a.txt" ∉ ([] : List Name)) ∧
    ((fun _ : Name => false) "a.txt" = false) ∧
    ((uploadLoop [] (fun _ => false) (fun _ => false)
        [] ⟨[], [], []⟩).2 = none) ∧
    upload_files_to_s3 ([] ++ ("a.txt", some "ua") :: [("b.txt", some "ub")])
        [] (fun _ => false) (fun _ => false)
      = ({ (uploadLoop [] (fun _ => false) (fun _ => false)
              [] ⟨[], [], []⟩).1 with
            fetches := (uploadLoop [] (fun _ => false) (fun _ => false)
              [] ⟨[], [], []⟩).1.fetches ++ ["a.txt"] },
          some "a.txt") :=
  ⟨by decide, rfl, rfl,
    c2_failure_aborts_rest [] (fun _ => false) (fun _ => false) []
      [("b.txt", some "ub")] "a.txt" "ua" (by decide) rfl rfl⟩

/-! ### Claim C3 -/

/-- C3, counterexample: a batch delete of `c.txt` and `d.txt` where
`d.txt` fails server-side actually deletes one key, but line 126 reports
`len(delete_objects) = 2`, not 1 — the batch-delete response is never
inspected. -/
theorem c3_count_counterexample :
    remove_files_from_s3 [] ["c.txt", "d.txt"] "dataset/"
        (fun n => n == "c.txt") = (["c.txt"], 2) ∧
    (remove_files_from_s3 [] ["c.txt", "d.txt"] "dataset/"
        (fun n => n == "c.txt")).1.length = 1 ∧
    (remove_files_from_s3 [] ["c.txt", "d.txt"] "dataset/"
        (fun n => n == "c.txt")).2 ≠ 1 := by
  decide

/-- C3, amended: the reported deleted count always equals the number of
keys requested in the batch delete (the size of `to_delete`), whatever the
per-key server outcome; the keys actually deleted form a subset of the
request. -/
theorem c3_reported_count_is_requested (files_info : RemoteCatalog)
    (existing : List Name) (sp : String) (delOk : Name → Bool) :
    (remove_files_from_s3 files_info existing sp delOk).2
      = (files_to_delete files_info existing).length ∧
    ∀ n, n ∈ (remove_files_from_s3 files_info existing sp delOk).1
      → n ∈ files_to_delete files_info existing := by
  simp only [remove_files_from_s3]
  split
  · rename_i h
    rw [h]
    exact ⟨rfl, by simp⟩
  · refine ⟨by simp, fun n hn => ?_⟩
    exact (List.mem_filter.mp hn).1

/-! ### Claim C5 -/

/-- C5: an entry whose locator is `None` (such as the injected
`index.html` and `usa_population.json` entries) is a key of the remote
catalog, hence never a member of `to_delete = S − keys(R)`, whatever the
store contents. -/
theorem c5_protected_not_deleted (files_info : RemoteCatalog)
    (existing : List Name) (n : Name) (h : (n, none) ∈ files_info) :
    n ∉ files_to_delete files_info existing := by
  intro hmem
  exact (mem_files_to_delete.mp hmem).2
    (List.mem_map.mpr ⟨(n, none), h, rfl⟩)

/-- C5 witness: the protected `index.html` entry survives diffing against
a store that contains it plus an obsolete file. -/
theorem c5_protected_not_deleted_witness :
    (("index.html", (none : Option String))
        ∈ [("index.html", (none : Option String))]) ∧
    "index.html" ∉ files_to_delete [("index.html", none)]
        ["index.html", "c.txt"] :=
  ⟨by decide,
    c5_protected_not_deleted [("index.html", none)] ["index.html", "c.txt"]
      "index.html" (by decide)⟩

/-! ### Claim C4 -/

/-- C4, counterexample: for prefix `dataset/` and the listed key
`dataset/dataset/x.txt`, Python's `key.split(s3_prefix)[1]` (line 79)
splits on every occurrence of the prefix and returns `""`, not the suffix
`dataset/x.txt` the claim demands. -/
theorem c4_strip_counterexample :
    get_s3_objects "dataset/" [some ["dataset/dataset/x.txt"]] = [""] ∧
    ("" : String) ≠ "dataset/x.txt" := by
  decide

/-- C4, amended: the builder returns the segment of the key between the
first and second occurrences of the prefix; this equals the suffix after
the leading prefix exactly for keys in which the prefix does not occur
again after its leading occurrence. -/
theorem c4_strip_is_suffix_when_no_reoccurrence (sp rest : String)
    (hsep : sp.data ≠ []) (hocc : splitFirst sp.data rest.data = none) :
    stripKey sp (sp ++ rest) = rest := by
  unfold stripKey
  have hdata : (sp ++ rest).data = sp.data ++ rest.data :=
    String.data_append sp rest
  rw [hdata]
  have hpre : sp.data.isPrefixOf (sp.data ++ rest.data) = true := by
    rw [List.isPrefixOf_iff_prefix]
    exact List.prefix_append _ _
  rw [if_pos hpre]
  unfold splitIndex1
  rw [pySplit_of_some hsep (splitFirst_append_self hsep rest.data),
    pySplit_of_none hocc]
  exact String.ext rfl

/-- C4 witness for the amended theorem: a key whose suffix does not repeat
the prefix is stripped to exactly that suffix. -/
theorem c4_strip_witness :
    ("dataset/".data ≠ []) ∧
    (splitFirst "dataset/".data "x.txt".data = none) ∧
    stripKey "dataset/" ("dataset/" ++ "x.txt") = "x.txt" :=
  ⟨by decide, by decide,
    c4_strip_is_suffix_when_no_reoccurrence "dataset/" "x.txt" (by decide)
      (by decide)⟩

/-! ### Claim C6 -/

/-- C6: the StoreCatalog builder consumes every page of the paginated
listing — its output is exactly the non-marker keys of the concatenation
of all pages, prefix-processed, with no truncation to a first page. -/
theorem c6_pagination_complete (sp : String)
    (pages : List (Option (List String))) :
    get_s3_objects sp pages
      = ((pages.map pageKeys).flatten.filter
          (fun k => !isMarker k)).map (stripKey sp) := by
  unfold get_s3_objects
  simpa using get_s3_objects_foldl sp pages []

/-! ### Claim C7 -/

/-- C7: after one fully successful run of `sync_bucket`, a second run with
the same remote catalog uploads nothing and deletes nothing — the store
key set equals the remote key set, so both plan sets are empty. -/
theorem c7_second_run_empty (d1 : List (Name × String)) (S : List Name) :
    (upload_files_to_s3 (sync_remote d1) (storeAfterRun d1 S)
        (fun _ => true) (fun _ => true)).1.uploaded = [] ∧
    files_to_delete (sync_remote d1) (storeAfterRun d1 S) = [] := by
  have hS2 : storeAfterRun d1 S
      = S.filter (fun n => decide (n ∈ keys (sync_remote d1)))
        ++ (upload_files_to_s3 (sync_remote d1) S (fun _ => true)
              (fun _ => true)).1.uploaded
        ++ ["usa_population.json", "index.html"] := rfl
  have hloop1 := uploadLoop_ok S (fun _ => true) (fun _ => true)
    (fun _ => rfl) (sync_remote d1) ⟨[], [], []⟩
  have hloop2 := uploadLoop_ok (storeAfterRun d1 S) (fun _ => true)
    (fun _ => true) (fun _ => rfl) (sync_remote d1) ⟨[], [], []⟩
  have hjson : "usa_population.json" ∈ keys (sync_remote d1) :=
    mem_keys_dictInsert.mpr (Or.inl rfl)
  have hindex : "index.html" ∈ keys (sync_remote d1) :=
    mem_keys_dictInsert.mpr (Or.inr (mem_keys_dictInsert.mpr (Or.inl rfl)))
  have hA : ∀ m url, (m, some url) ∈ sync_remote d1
      → m ∈ storeAfterRun d1 S := by
    intro m url hm
    rw [hS2]
    by_cases hms : m ∈ S
    · apply List.mem_append_left
      apply List.mem_append_left
      exact List.mem_filter.mpr ⟨hms, by simpa using mem_keys_of_some hm⟩
    · apply List.mem_append_left
      apply List.mem_append_right
      have := (hloop1.2 m).mpr (Or.inr ⟨⟨url, hm⟩, hms⟩)
      simpa [upload_files_to_s3] using this
  have hB : ∀ m, m ∈ storeAfterRun d1 S → m ∈ keys (sync_remote d1) := by
    intro m hm
    rw [hS2] at hm
    rcases List.mem_append.mp hm with hm | hm
    · rcases List.mem_append.mp hm with hm | hm
      · simpa using (List.mem_filter.mp hm).2
      · have := (hloop1.2 m).mp (by simpa [upload_files_to_s3] using hm)
        rcases this with h | ⟨⟨url, hurl⟩, -⟩
        · simp at h
        · exact mem_keys_of_some hurl
    · simp only [List.mem_cons, List.mem_singleton] at hm
      rcases hm with rfl | rfl | h
      · exact hjson
      · exact hindex
      · simp at h
  constructor
  · rw [List.eq_nil_iff_forall_not_mem]
    intro m hm
    have := (hloop2.2 m).mp (by simpa [upload_files_to_s3] using hm)
    rcases this with h | ⟨⟨url, hurl⟩, hns⟩
    · simp at h
    · exact hns (hA m url hurl)
  · unfold files_to_delete
    apply (List.dedup_eq_nil _).mpr
    rw [List.filter_eq_nil_iff]
    intro a ha
    simp only [decide_eq_true_eq]
    exact fun hcon => hcon (hB a ha)

/-! ### Claim C8 -/

set_option maxRecDepth 100000 in
/-- C8, counterexample: `generate_index_html` issues a single,
unpaginated `list_objects_v2` call (line 136), so with a listing of two
pages the published document is not the claimed full enumeration —
`dataset/b.txt`, a non-marker object under the prefix sitting on the
second page, gets no entry. -/
theorem c8_truncation_counterexample :
    isMarker "dataset/b.txt" = false ∧
    "dataset/b.txt" ∈ [["dataset/a.txt"], ["dataset/b.txt"]].flatten ∧
    generate_index_html "dataset/"
        (list_objects_v2 [["dataset/a.txt"], ["dataset/b.txt"]])
      ≠ some ("dataset/" ++ "index.html",
          specIndexDocument "dataset/"
            [["dataset/a.txt"], ["dataset/b.txt"]].flatten) := by
  decide

/-- C8, amended: the published index document lists exactly one entry per
non-marker key of the first page of the listing (the single
`list_objects_v2` response), each with anchor text the basename and href
the deterministic public URL; pages beyond the first are ignored. -/
theorem c8_index_lists_first_page (pfx : String) (page : List String)
    (rest : List (List String)) :
    generate_index_html pfx (list_objects_v2 (page :: rest))
      = some (pfx ++ "index.html", specIndexDocument pfx page) := by
  show some (pfx ++ "index.html",
      String.intercalate "\n"
        (page.foldl
          (fun lines key => if isMarker key then lines else lines ++ [liLine key])
          (indexHeader pfx) ++ ["</ul></body></html>"])) = _
  unfold specIndexDocument
  rw [foldl_guard_append isMarker liLine page (indexHeader pfx)]

/-! ### Claim C9 -/

/-- C9: with the remote catalog's keys unique (a Python dict guarantees
this), the upload path performs at most one remote fetch per name per run:
a name needing upload is fetched once with the response shared with the
local-cache write, and a name already in the store is fetched at most once
more only for its dedicated local-cache copy. -/
theorem c9_at_most_one_fetch (files_info : RemoteCatalog)
    (existing : List Name) (le f : Name → Bool)
    (hnd : (keys files_info).Nodup) (n : Name) :
    ((upload_files_to_s3 files_info existing le f).1.fetches).count n ≤ 1 := by
  have h := uploadLoop_count existing le f files_info ⟨[], [], []⟩ n
  have hk := List.nodup_iff_count_le_one.mp hnd n
  have h0 : (UploadState.mk [] [] []).fetches.count n = 0 := rfl
  rw [h0] at h
  calc ((upload_files_to_s3 files_info existing le f).1.fetches).count n
      ≤ 0 + (keys files_info).count n := h
    _ ≤ 1 := by omega

/-- C9 witness: a name already in the store and on the local allow-list is
fetched exactly once (for the cache copy), satisfying the bound. -/
theorem c9_at_most_one_fetch_witness :
    (keys [("pr.data.0.Current", some "u")]).Nodup ∧
    ((upload_files_to_s3 [("pr.data.0.Current", some "u")]
        ["pr.data.0.Current"] (fun _ => false)
        (fun _ => true)).1.fetches).count "pr.data.0.Current" ≤ 1 :=
  ⟨by decide,
    c9_at_most_one_fetch [("pr.data.0.Current", some "u")]
      ["pr.data.0.Current"] (fun _ => false) (fun _ => true) (by decide)
      "pr.data.0.Current"⟩

/-! ### Claim C10 -/

/-- C10: when the store prefix holds no objects at publication time (the
listing response has no `Contents`), `generate_index_html` returns at line
139 without putting anything: no index document is written. -/
theorem c10_empty_listing_publishes_nothing (pfx : String) :
    generate_index_html pfx (list_objects_v2 []) = none ∧
    generate_index_html pfx none = none :=
  ⟨rfl, rfl⟩

end Quest
